import Mathlib

/-!
Verification of the mcp-filesystem security and consistency kernel.

The definitions below are a shallow embedding of the TypeScript sources:

* `SecurityManager.ts` — `validatePath` (layered path vetting), `checkRateLimit`,
  `emergencyStop`,
* `BatchOperationManager.ts` — `executeBatch` with rollback,
* `DirectoryOperations.ts` — `recursiveSync`,
* `DirectoryWatcher.ts` — watch sessions, event buffers, stop paths.

Paths are POSIX strings; `path.resolve` / `path.dirname` are modelled by
`posixResolve` / `dirname`; the filesystem visible to `validatePath` is a map
from a path to an optional symlink target; machine time is a `Nat` number of
milliseconds.  Regexes compiled from user configuration are modelled as opaque
`String → Bool` predicates; the hardcoded sensitive-pattern regexes are simple
enough to be translated literally (substring / suffix / lowercased substring
tests).  String primitives (`includes`, `startsWith`, `endsWith`,
`toLowerCase`, splitting on the separator) are implemented here by structural
recursion over the character list so that concrete runs reduce inside the
kernel.
-/

namespace MCPFS

/-- Substring occurrence test on character lists: JavaScript
`s.includes(pat)`. -/
def hasSub : List Char → List Char → Bool
  | s, pat =>
    if pat.isPrefixOf s then true
    else match s with
      | [] => false
      | _ :: rest => hasSub rest pat

/-- JavaScript `s.includes(pat)`. -/
def strContains (s pat : String) : Bool := hasSub s.data pat.data

/-- JavaScript `s.startsWith(pre)`. -/
def strStartsWith (s pre : String) : Bool := pre.data.isPrefixOf s.data

/-- JavaScript `s.endsWith(suf)` (used for the `$`-anchored regexes). -/
def strEndsWith (s suf : String) : Bool := suf.data.reverse.isPrefixOf s.data.reverse

/-- String equality as a boolean (JavaScript `===` on strings). -/
def strEq (a b : String) : Bool := a.data == b.data

/-- JavaScript `s.toLowerCase()` restricted to ASCII, as the `/i` regex flag
needs. -/
def strLower (s : String) : String := String.mk (s.data.map Char.toLower)

/-- Split a character list on `/`, keeping empty segments, as
`combined.split("/")` would. -/
def splitSlash : List Char → List Char → List String
  | [], acc => [String.mk acc.reverse]
  | c :: rest, acc =>
    if c = '/' then String.mk acc.reverse :: splitSlash rest []
    else splitSlash rest (c :: acc)

/-- Join path segments with `/`. -/
def joinSegs : List String → String
  | [] => ""
  | [s] => s
  | s :: rest => s ++ "/" ++ joinSegs rest

/-- Operation kind accepted by `validatePath` ("read" | "write" | "delete"). -/
inductive Op where
  | read
  | write
  | delete
deriving DecidableEq, Repr

/-- POSIX path separator, the `path.sep` used on the reference platform. -/
def pathSep : String := "/"

/-- Normalize the segment list of an absolute path: drop empty and `.`
segments, let `..` pop the previous segment (staying at the root when there
is none), as Node's `path.resolve` canonicalization does. -/
def normSegs : List String → List String → List String
  | [], acc => acc.reverse
  | s :: rest, acc =>
    if s = "" || s = "." then normSegs rest acc
    else if s = ".." then normSegs rest acc.tail
    else normSegs rest (s :: acc)

/-- Node `path.resolve(root, p)` on POSIX, for an absolute `root`: if `p` is
absolute it wins, otherwise it is joined under `root`; the result is
canonicalized. -/
def posixResolve (root p : String) : String :=
  let combined := if strStartsWith p "/" then p else root ++ "/" ++ p
  let segs := normSegs (splitSlash combined.data []) []
  if segs.isEmpty then "/" else "/" ++ joinSegs segs

/-- Node `path.dirname` for an absolute path. -/
def dirname (p : String) : String :=
  let segs := normSegs (splitSlash p.data []) []
  let initSegs := segs.dropLast
  if initSegs.isEmpty then "/" else "/" ++ joinSegs initSegs

/-- Lexical traversal screen of `validatePath` layer 3: the literal input
contains `..`, `./` or `.\`. -/
def hasTraversalSeq (p : String) : Bool :=
  strContains p ".." || strContains p "./" || strContains p ".\\"

/-- Workspace boundary test of `validatePath` layer 2: the resolved path
starts with `workspaceRoot + path.sep` or equals `workspaceRoot`. -/
def inBoundary (root p : String) : Bool :=
  strStartsWith p (root ++ pathSep) || strEq p root

/-- Hardcoded system path prefixes that are always blocked
(`SecurityManager.SYSTEM_PATHS`). -/
def SYSTEM_PATHS : List String :=
  ["/etc", "/sys", "/proc", "/dev", "/boot", "/root",
   "C:\\Windows", "C:\\Program Files", "C:\\Program Files (x86)",
   "/System", "/Library", "/Applications",
   "/bin", "/sbin", "/usr/bin", "/usr/sbin"]

/-- Hardcoded sensitive file patterns that are always blocked
(`SecurityManager.SENSITIVE_PATTERNS`); each regex of the source is
translated to the substring / suffix / case-insensitive test it denotes. -/
def SENSITIVE_PATTERNS : List (String → Bool) :=
  [fun p => strContains p ".ssh/",
   fun p => strContains p ".aws/",
   fun p => strContains p ".kube/",
   fun p => strContains p "id_rsa",
   fun p => strEndsWith p ".pem",
   fun p => strEndsWith p ".key",
   fun p => strEndsWith p ".p12",
   fun p => strEndsWith p ".pfx",
   fun p => strContains (strLower p) "password",
   fun p => strContains (strLower p) "secret",
   fun p => strContains (strLower p) "token",
   fun p => strEndsWith p ".env"]

/-- State of a constructed `SecurityManager`: the resolved workspace root,
the user configuration lists (subdirectories and blocked paths already
resolved, blocked glob patterns already compiled to predicates), the
read-only flag and the `emergencyMode` flag. -/
structure SMState where
  workspaceRoot : String
  allowedSubdirectories : List String
  blockedPaths : List String
  blockedPatterns : List (String → Bool)
  readOnly : Bool
  emergencyMode : Bool

/-- Classification of a `validatePath` rejection, following the audit
`type` the source attaches to each throw site (the read-only throw has no
audit line; it gets its own constructor).  `outOfFuel` marks a computation
that still recurses when the fuel runs out. -/
inductive SecViolation where
  | workspaceEscape
  | pathTraversal
  | systemPathAccess
  | sensitiveFileAccess
  | subdirectoryRestriction
  | blockedPath
  | blockedPattern
  | readOnlyViolation
  | outOfFuel
deriving DecidableEq, Repr

/-- Fuel-indexed embedding of `SecurityManager.validatePath`.  `links p` is
the effective layer-10 observation: `some target` when `fs.existsSync(p)`
holds (it follows symlinks) and `lstatSync(p).isSymbolicLink()`, with
`readlinkSync(p) = target`; `none` when the layer is skipped or the node is
not a symlink.  Quantifying over arbitrary maps over-approximates the
reachable observations, which only strengthens the universally quantified
theorems below; `validatePathFS` makes the `existsSync` gate explicit.  The
source recursion on symlink targets has no depth bound; the fuel only makes
the Lean function total, and `outOfFuel` marks runs that are still
recursing after `fuel` nested calls. -/
def validatePathAux (st : SMState) (links : String → Option String) :
    Nat → String → Op → Except SecViolation String
  | 0, _, _ => .error .outOfFuel
  | fuel + 1, filePath, operation =>
    let resolved := posixResolve st.workspaceRoot filePath
    if !inBoundary st.workspaceRoot resolved then .error .workspaceEscape
    else if hasTraversalSeq filePath then .error .pathTraversal
    else if SYSTEM_PATHS.any (fun sp => strStartsWith resolved sp) then
      .error .systemPathAccess
    else if SENSITIVE_PATTERNS.any (fun pat => pat resolved) then
      .error .sensitiveFileAccess
    else if !st.allowedSubdirectories.isEmpty &&
        !st.allowedSubdirectories.any
          (fun a => strStartsWith resolved (a ++ pathSep) || strEq resolved a) then
      .error .subdirectoryRestriction
    else if st.blockedPaths.any (fun b => strStartsWith resolved b) then
      .error .blockedPath
    else if st.blockedPatterns.any (fun pat => pat resolved) then
      .error .blockedPattern
    else if st.readOnly &&
        (match operation with | .write => true | .delete => true | .read => false) then
      .error .readOnlyViolation
    else
      match links resolved with
      | some target =>
        match validatePathAux st links fuel
            (posixResolve (dirname resolved) target) operation with
        | .error e => .error e
        | .ok _ => .ok resolved
      | none => .ok resolved

/-- Embedding of `SecurityManager.emergencyStop`. -/
def emergencyStop (st : SMState) : SMState := { st with emergencyMode := true }

/-- Embedding of `SecurityManager.isEmergencyMode`. -/
def isEmergencyMode (st : SMState) : Bool := st.emergencyMode

/-- Boolean string equality implies propositional equality. -/
theorem strEq_eq {a b : String} (h : strEq a b = true) : a = b := by
  cases a with
  | mk d1 =>
    cases b with
    | mk d2 => exact congrArg String.mk (eq_of_beq h)

/-- Workspace-rooted manager state with empty user configuration. -/
def smDefault : SMState := ⟨"/ws", [], [], [], false, false⟩

/-- Filesystem with no symbolic links. -/
def noLinks : String → Option String := fun _ => none

/-- C1: whenever `validatePath` returns normally, the returned absolute path
either equals the workspace root or starts with the workspace root followed
by the path separator, for every configuration, filesystem, input path and
operation kind. -/
theorem validatePath_within_workspace (st : SMState) (links : String → Option String)
    (fuel : Nat) (p : String) (op : Op) (out : String)
    (h : validatePathAux st links fuel p op = .ok out) :
    out = st.workspaceRoot ∨ strStartsWith out (st.workspaceRoot ++ pathSep) = true := by
  cases fuel with
  | zero => simp [validatePathAux] at h
  | succ n =>
    cases hbv : inBoundary st.workspaceRoot (posixResolve st.workspaceRoot p) with
    | false =>
      simp only [validatePathAux, hbv] at h
      simp at h
    | true =>
      have hout : out = posixResolve st.workspaceRoot p := by
        simp only [validatePathAux, hbv] at h
        repeat' split at h
        all_goals simp_all
      rw [hout]
      have hdisj : strStartsWith (posixResolve st.workspaceRoot p)
          (st.workspaceRoot ++ pathSep) = true ∨
          strEq (posixResolve st.workspaceRoot p) st.workspaceRoot = true := by
        simpa [inBoundary] using hbv
      rcases hdisj with hs | he
      · exact Or.inr hs
      · exact Or.inl (strEq_eq he)

/-- Witness for C1 at a concrete input: vetting `a` under root `/ws` returns
`/ws/a`, which satisfies the boundary property. -/
theorem validatePath_within_workspace_witness :
    validatePathAux smDefault noLinks 1 "a" .read = .ok "/ws/a" ∧
    ("/ws/a" = smDefault.workspaceRoot ∨
      strStartsWith "/ws/a" (smDefault.workspaceRoot ++ pathSep) = true) :=
  ⟨rfl, validatePath_within_workspace smDefault noLinks 1 "a" .read "/ws/a" rfl⟩

/-- C2: in `SecurityManager.ts`, `emergencyStop` sets the `emergencyMode`
flag, but `validatePath` never consults it: after an emergency stop, vetting
still returns normally instead of rejecting.  This evaluates the embedding at
the failing input (root `/ws`, input `a`, operation `read`). -/
theorem emergencyStop_not_consulted_by_validatePath :
    isEmergencyMode (emergencyStop smDefault) = true ∧
    validatePathAux (emergencyStop smDefault) noLinks 1 "a" .read = .ok "/ws/a" :=
  ⟨rfl, rfl⟩

/-- C5 counterexample: with root `/ws`, the input `../etc/passwd` for a read
is rejected as a workspace escape (the boundary check of layer 2 fires
before the lexical traversal screen of layer 3), not as `PATH_TRAVERSAL`. -/
theorem traversal_screen_not_first_counterexample :
    validatePathAux smDefault noLinks 5 "../etc/passwd" .read = .error .workspaceEscape ∧
    validatePathAux smDefault noLinks 5 "../etc/passwd" .read ≠ .error .pathTraversal := by
  constructor
  · rfl
  · intro hcontra
    have h1 : validatePathAux smDefault noLinks 5 "../etc/passwd" Op.read
        = Except.error SecViolation.workspaceEscape := rfl
    rw [h1] at hcontra
    simp at hcontra

/-- C5 amended: every input whose literal text contains `..`, `./` or `.\`
is rejected, but the classification is `PATH_TRAVERSAL` only when the
resolved path stays inside the workspace; when resolution leaves the
workspace the earlier boundary layer classifies it as a workspace escape. -/
theorem traversal_sequences_rejected (st : SMState) (links : String → Option String)
    (fuel : Nat) (p : String) (op : Op) (h : hasTraversalSeq p = true) :
    validatePathAux st links (fuel + 1) p op =
      .error (if inBoundary st.workspaceRoot (posixResolve st.workspaceRoot p) = true
        then SecViolation.pathTraversal else SecViolation.workspaceEscape) := by
  cases hbv : inBoundary st.workspaceRoot (posixResolve st.workspaceRoot p) with
  | false => simp [validatePathAux, hbv]
  | true => simp [validatePathAux, hbv, h]

/-- Witness for amended C5: `a/../b` under root `/ws` stays in the workspace
and is rejected as `PATH_TRAVERSAL`. -/
theorem traversal_sequences_rejected_witness :
    hasTraversalSeq "a/../b" = true ∧
    validatePathAux smDefault noLinks 1 "a/../b" .read = .error .pathTraversal := by
  refine ⟨rfl, ?_⟩
  simpa using traversal_sequences_rejected smDefault noLinks 0 "a/../b" .read rfl

/-- C6 counterexample: the resolved path of input `/etc/id_rsa` under root
`/ws` starts with the hardcoded system prefix `/etc` and matches the
hardcoded sensitive pattern `id_rsa`, yet `validatePath` rejects it as a
workspace escape, not as `SYSTEM_PATH` or `SENSITIVE_FILE`. -/
theorem hardcoded_screens_preempted_counterexample :
    SYSTEM_PATHS.any (fun sp => strStartsWith (posixResolve "/ws" "/etc/id_rsa") sp) = true ∧
    SENSITIVE_PATTERNS.any (fun pat => pat (posixResolve "/ws" "/etc/id_rsa")) = true ∧
    validatePathAux smDefault noLinks 5 "/etc/id_rsa" .read = .error .workspaceEscape ∧
    validatePathAux smDefault noLinks 5 "/etc/id_rsa" .read ≠ .error .systemPathAccess ∧
    validatePathAux smDefault noLinks 5 "/etc/id_rsa" .read ≠ .error .sensitiveFileAccess := by
  have h1 : validatePathAux smDefault noLinks 5 "/etc/id_rsa" Op.read
      = Except.error SecViolation.workspaceEscape := rfl
  refine ⟨rfl, rfl, rfl, ?_, ?_⟩ <;> intro hcontra <;> rw [h1] at hcontra <;> simp at hcontra

/-- C6 amended: for inputs that pass the workspace-boundary and lexical
screens, a resolved path starting with a hardcoded system prefix is rejected
as `SYSTEM_PATH`, and one matching a hardcoded sensitive pattern (and no
system prefix) is rejected as `SENSITIVE_FILE` — regardless of the
user-supplied allow/block configuration, which is quantified over here. -/
theorem hardcoded_screens_fire (st : SMState) (links : String → Option String)
    (fuel : Nat) (p : String) (op : Op)
    (hb : inBoundary st.workspaceRoot (posixResolve st.workspaceRoot p) = true)
    (ht : hasTraversalSeq p = false) :
    (SYSTEM_PATHS.any (fun sp => strStartsWith (posixResolve st.workspaceRoot p) sp) = true →
      validatePathAux st links (fuel + 1) p op = .error .systemPathAccess) ∧
    (SYSTEM_PATHS.any (fun sp => strStartsWith (posixResolve st.workspaceRoot p) sp) = false →
      SENSITIVE_PATTERNS.any (fun pat => pat (posixResolve st.workspaceRoot p)) = true →
      validatePathAux st links (fuel + 1) p op = .error .sensitiveFileAccess) := by
  constructor
  · intro hs
    simp [validatePathAux, hb, ht, hs]
  · intro hs hsen
    simp [validatePathAux, hb, ht, hs, hsen]

/-- Witness for amended C6 at two concrete configurations whose user lists
would otherwise restrict the paths differently: `bin/ls` under root `/usr`
is `SYSTEM_PATH`, `ok/secrets.txt` under root `/ws` is `SENSITIVE_FILE`. -/
theorem hardcoded_screens_fire_witness :
    validatePathAux ⟨"/usr", ["/usr/allowed"], ["/usr/blockme"], [], true, false⟩
      noLinks 1 "bin/ls" .read = .error .systemPathAccess ∧
    validatePathAux ⟨"/ws", ["/ws/ok"], [], [], true, false⟩
      noLinks 1 "ok/secrets.txt" .read = .error .sensitiveFileAccess :=
  ⟨(hardcoded_screens_fire ⟨"/usr", ["/usr/allowed"], ["/usr/blockme"], [], true, false⟩
      noLinks 0 "bin/ls" .read rfl rfl).1 rfl,
   (hardcoded_screens_fire ⟨"/ws", ["/ws/ok"], [], [], true, false⟩
      noLinks 0 "ok/secrets.txt" .read rfl rfl).2 rfl rfl⟩

/-- Embedding of `SecurityManager.checkRateLimit` for one agent: `ops` is
the agent's recorded timestamp list, `now` is `Date.now()`.  Entries older
than one minute are dropped; at or above the per-minute limit the call
rejects (returns `none`) without recording, otherwise `now` is appended and
the pruned list is stored. -/
def checkRateLimit (maxOps : Nat) (ops : List Nat) (now : Nat) : Option (List Nat) :=
  let recent := ops.filter (fun t => now - t < 60000)
  if maxOps ≤ recent.length then none
  else some (recent ++ [now])

/-- Run a sequence of `checkRateLimit` calls at the given timestamps,
threading the stored list; `none` when some call rejects. -/
def runCalls (maxOps : Nat) : List Nat → List Nat → Option (List Nat)
  | ops, [] => some ops
  | ops, t :: rest =>
    match checkRateLimit maxOps ops t with
    | none => none
    | some next => runCalls maxOps next rest

/-- Filtering keeps a list whose members all satisfy the predicate. -/
theorem filter_keep_all {α : Type} (p : α → Bool) :
    ∀ l : List α, (∀ x ∈ l, p x = true) → l.filter p = l := by
  intro l hall
  induction l with
  | nil => rfl
  | cons x rest ih =>
    have hx := hall x (by simp)
    simp only [List.filter, hx]
    rw [ih (fun y hy => hall y (by simp [hy]))]

/-- Filtering a list containing an element that fails the predicate
strictly shrinks it. -/
theorem filter_drop_shrinks {α : Type} (p : α → Bool) :
    ∀ l : List α, ∀ x ∈ l, p x = false → (l.filter p).length < l.length := by
  intro l
  induction l with
  | nil => intro x hx; simp at hx
  | cons y rest ih =>
    intro x hx hpx
    rcases List.mem_cons.mp hx with heq | hmem
    · subst heq
      simp only [List.filter, hpx]
      have := List.length_filter_le p rest
      simp
      omega
    · cases hpy : p y with
      | false =>
        simp only [List.filter, hpy]
        have := List.length_filter_le p rest
        simp
        omega
      | true =>
        simp only [List.filter, hpy]
        have := ih x hmem hpx
        simp
        omega

/-- Successful calls whose timestamps share one minute window never prune
anything and just accumulate, as long as capacity remains. -/
theorem runCalls_in_window (maxOps a : Nat) :
    ∀ (times ops : List Nat),
    (∀ t ∈ ops, a ≤ t ∧ t < a + 60000) →
    (∀ t ∈ times, a ≤ t ∧ t < a + 60000) →
    ops.length + times.length ≤ maxOps →
    runCalls maxOps ops times = some (ops ++ times) := by
  intro times
  induction times with
  | nil => intro ops _ _ _; simp [runCalls]
  | cons t rest ih =>
    intro ops hops htimes hlen
    have ht1 := htimes t (by simp)
    have hfilter : ops.filter (fun x => decide (t - x < 60000)) = ops := by
      apply filter_keep_all
      intro x hx
      have hx1 := hops x hx
      simp only [decide_eq_true_eq]
      omega
    have hlt : ops.length < maxOps := by
      simp only [List.length_cons] at hlen
      omega
    have hstep : checkRateLimit maxOps ops t = some (ops ++ [t]) := by
      simp only [checkRateLimit, hfilter]
      rw [if_neg (by omega)]
    have hrest : runCalls maxOps (ops ++ [t]) rest = some ((ops ++ [t]) ++ rest) := by
      apply ih
      · intro x hx
        rcases List.mem_append.mp hx with hmem | hmem
        · exact hops x hmem
        · simp at hmem
          subst hmem
          exact ht1
      · intro x hx
        exact htimes x (by simp [hx])
      · simp only [List.length_append, List.length_cons] at hlen ⊢
        simp
        omega
    simp only [runCalls, hstep, hrest]
    simp

/-- C7: for any agent and limit, `maxOps` recorded calls whose timestamps
all lie inside one 60-second window all succeed and leave exactly those
timestamps stored; any further check inside that window rejects with
`RATE_LIMIT`; and once 60 seconds have elapsed since the oldest recorded
call, pruning restores capacity and the next check succeeds. -/
theorem rate_limit_window_behavior (maxOps a : Nat) (times : List Nat)
    (hwin : ∀ t ∈ times, a ≤ t ∧ t < a + 60000)
    (hlen : times.length = maxOps) :
    runCalls maxOps [] times = some times ∧
    (∀ now, a ≤ now → now < a + 60000 → checkRateLimit maxOps times now = none) ∧
    (∀ tmin, tmin ∈ times → ∀ later, tmin + 60000 ≤ later →
      (checkRateLimit maxOps times later).isSome = true) := by
  refine ⟨?_, ?_, ?_⟩
  · simpa using runCalls_in_window maxOps a times [] (by simp) hwin (by simp [hlen])
  · intro now h1 h2
    have hfilter : times.filter (fun x => decide (now - x < 60000)) = times := by
      apply filter_keep_all
      intro x hx
      have hx1 := hwin x hx
      simp only [decide_eq_true_eq]
      omega
    simp only [checkRateLimit, hfilter]
    rw [if_pos (by omega)]
  · intro tmin hmem later hlater
    have hdrop : (times.filter (fun x => decide (later - x < 60000))).length
        < times.length := by
      apply filter_drop_shrinks _ _ tmin hmem
      simp only [decide_eq_false_iff_not]
      omega
    simp only [checkRateLimit]
    rw [if_neg (by omega)]
    simp

/-- Witness for C7: limit 2, calls at 100 and 200; the stored list is
`[100, 200]`, a third check at 59000 rejects, and a check at 60100 (more
than a minute after the oldest call) succeeds. -/
theorem rate_limit_window_behavior_witness :
    runCalls 2 [] [100, 200] = some [100, 200] ∧
    checkRateLimit 2 [100, 200] 59000 = none ∧
    (checkRateLimit 2 [100, 200] 60100).isSome = true := by
  have h := rate_limit_window_behavior 2 100 [100, 200] (by
    intro t ht
    simp at ht
    rcases ht with h1 | h1 <;> omega) rfl
  exact ⟨h.1, h.2.1 59000 (by omega) (by omega),
    h.2.2 100 (by simp) 60100 (by omega)⟩

/-!
Embedding of `BatchOperationManager.ts` over a flat file map.  The manager
receives its `ISecurityManager` by injection; here `validate` stands for the
injected `validatePath` and may be instantiated with any vetting function.
`Date.now()` is the `time` parameter (the backup-suffix clock).  In this flat
model every filesystem entry is a regular file, as in the failing scenario.
-/

/-- Flat filesystem: an association list from absolute path to content. -/
abbrev FS := List (String × String)

/-- Lookup a path's content. -/
def fsLookup : FS → String → Option String
  | [], _ => none
  | (q, c) :: rest, p => if q = p then some c else fsLookup rest p

/-- Node `fs.existsSync`. -/
def fsExists (fs : FS) (p : String) : Bool := (fsLookup fs p).isSome

/-- Remove a path from the map. -/
def fsRemove : FS → String → FS
  | [], _ => []
  | (q, c) :: rest, p => if q = p then fsRemove rest p else (q, c) :: fsRemove rest p

/-- Bind a path to a content, replacing any previous binding. -/
def fsSet (fs : FS) (p c : String) : FS := (p, c) :: fsRemove fs p

/-- Node `fs.renameSync`: fails with ENOENT when the source is missing,
silently replaces an existing destination. -/
def renameSync (fs : FS) (src dst : String) : Except String FS :=
  match fsLookup fs src with
  | none => .error "ENOENT"
  | some c => .ok (fsSet (fsRemove fs src) dst c)

/-- Node `fs.copyFileSync`. -/
def copyFileSync (fs : FS) (src dst : String) : Except String FS :=
  match fsLookup fs src with
  | none => .error "ENOENT"
  | some c => .ok (fsSet fs dst c)

/-- Batch operation kind. -/
inductive BatchOpType where
  | copy
  | move
  | delete
deriving DecidableEq, Repr

/-- One requested batch operation (`BatchOperation` of the source). -/
structure BatchOperation where
  type : BatchOpType
  source : String
  destination : Option String
deriving DecidableEq, Repr

/-- Rollback record captured per executed operation (`RollbackInfo`). -/
structure RollbackInfo where
  operation : BatchOperation
  backupPath : Option String
  wasCreated : Bool
deriving Repr

/-- The vetting function injected into the batch manager
(`securityManager.validatePath`). -/
abbrev Validator := String → Op → Except String String

/-- Embedding of `validateSingleOperation`: vet the source, require
existence and the file-size cap for copy/move sources, vet the destination,
and require a destination for copy/move. -/
def validateSingleOperation (validate : Validator) (maxFileSize : Nat)
    (op : BatchOperation) (fs : FS) : Except String Unit := do
  let vsrc ← validate op.source (if op.type = .delete then .delete else .read)
  if op.type ≠ .delete then
    match fsLookup fs vsrc with
    | none => throw ("Source path does not exist: " ++ op.source)
    | some c =>
      if c.data.length > maxFileSize then throw "File size exceeds maximum"
      else pure ()
  match op.destination with
  | some d =>
    let _ ← validate d .write
    pure ()
  | none =>
    if op.type ≠ .delete then throw "Destination required"
    else pure ()

/-- Recursive worker of `validateAllOperations`, accumulating the total of
copy/move source sizes. -/
def validateAllOperationsAux (validate : Validator) (maxFileSize : Nat) :
    List BatchOperation → FS → Nat → Except String Nat
  | [], _, total => .ok total
  | op :: rest, fs, total => do
    let vsrc ← validate op.source (if op.type = .delete then .delete else .read)
    let total' ←
      if op.type ≠ .delete then
        match fsLookup fs vsrc with
        | none => throw ("Source path does not exist: " ++ op.source)
        | some c =>
          if c.data.length > maxFileSize then throw "File size exceeds maximum"
          else pure (total + c.data.length)
      else pure total
    match op.destination with
    | some d => do
      let _ ← validate d .write
      validateAllOperationsAux validate maxFileSize rest fs total'
    | none =>
      if op.type ≠ .delete then throw "Destination required"
      else validateAllOperationsAux validate maxFileSize rest fs total'

/-- Embedding of `validateAllOperations` (atomic-mode pre-validation): the
per-operation checks, then `validateBatchSize` on the accumulated total. -/
def validateAllOperations (validate : Validator) (maxFileSize maxBatchSize : Nat)
    (ops : List BatchOperation) (fs : FS) : Except String Unit := do
  let total ← validateAllOperationsAux validate maxFileSize ops fs 0
  if total > maxBatchSize then throw "Batch size exceeds maximum"
  else pure ()

/-- Embedding of `executeCopy` (flat-file case: `copyFileSync`). -/
def executeCopy (validate : Validator) (fs : FS) (source dest : String) :
    Except String (FS × Option String × Bool) := do
  let vdst ← validate dest .write
  if !fsExists fs source then
    throw ("Source file disappeared before copy: " ++ source)
  else
    let destExists := fsExists fs vdst
    let fs1 ← copyFileSync fs source vdst
    pure (fs1, none, !destExists)

/-- Embedding of `executeMove`: shadow-back up a pre-existing destination
under `<dest>.backup-<Date.now()>`, then rename the source onto the
destination. -/
def executeMove (validate : Validator) (time : Nat) (fs : FS) (source dest : String) :
    Except String (FS × Option String × Bool) := do
  let vdst ← validate dest .write
  let destExists := fsExists fs vdst
  if destExists then
    let bp := vdst ++ ".backup-" ++ toString time
    let fs1 ← renameSync fs vdst bp
    let fs2 ← renameSync fs1 source vdst
    pure (fs2, some bp, false)
  else
    let fs2 ← renameSync fs source vdst
    pure (fs2, none, true)

/-- Embedding of `executeDelete`: rename the source to its shadow path
instead of unlinking. -/
def executeDelete (time : Nat) (fs : FS) (source : String) :
    Except String (FS × Option String) := do
  let bp := source ++ ".backup-" ++ toString time
  let fs1 ← renameSync fs source bp
  pure (fs1, some bp)

/-- Embedding of `executeOperation`: re-vet the source, dispatch on the
kind.  The source's non-null assertion `operation.destination!` is the
`none` branch (it can only be reached past validation, which requires a
destination). -/
def executeOperation (validate : Validator) (time : Nat)
    (op : BatchOperation) (fs : FS) : Except String (FS × RollbackInfo) := do
  let vsrc ← validate op.source (if op.type = .delete then .delete else .read)
  match op.type with
  | .copy =>
    match op.destination with
    | some d => do
      let (fs1, bp, created) ← executeCopy validate fs vsrc d
      pure (fs1, ⟨op, bp, created⟩)
    | none => throw "Destination required"
  | .move =>
    match op.destination with
    | some d => do
      let (fs1, bp, created) ← executeMove validate time fs vsrc d
      pure (fs1, ⟨op, bp, created⟩)
    | none => throw "Destination required"
  | .delete => do
    let (fs1, bp) ← executeDelete time fs vsrc
    pure (fs1, ⟨op, bp, false⟩)

/-- Embedding of `rollbackSingleOperation`.  The result is the filesystem
after the steps that ran; a thrown error (second component) aborts the
remaining steps of this record only — the caller catches and logs it. -/
def rollbackSingleOperation (validate : Validator) (info : RollbackInfo)
    (fs : FS) : FS × Option String :=
  match info.operation.type with
  | .copy =>
    if info.wasCreated then
      match info.operation.destination with
      | some d =>
        match validate d .delete with
        | .error e => (fs, some e)
        | .ok vdst =>
          if fsExists fs vdst then (fsRemove fs vdst, none) else (fs, none)
      | none => (fs, none)
    else (fs, none)
  | .move =>
    let step1 : FS × Option String :=
      match info.backupPath, info.operation.destination with
      | some bp, some d =>
        if fsExists fs bp then
          match validate d .delete with
          | .error e => (fs, some e)
          | .ok vdst =>
            let fsa := if fsExists fs vdst then fsRemove fs vdst else fs
            match renameSync fsa bp vdst with
            | .error e => (fsa, some e)
            | .ok fsb => (fsb, none)
        else (fs, none)
      | _, _ => (fs, none)
    match step1 with
    | (_, some e) => (step1.1, some e)
    | (fs1, none) =>
      match info.operation.destination with
      | some d =>
        match validate d .read with
        | .error e => (fs1, some e)
        | .ok vdst =>
          match validate info.operation.source .write with
          | .error e => (fs1, some e)
          | .ok vsrc =>
            if fsExists fs1 vdst then
              match renameSync fs1 vdst vsrc with
              | .error e => (fs1, some e)
              | .ok fsb => (fsb, none)
            else (fs1, none)
      | none => (fs1, none)
  | .delete =>
    match info.backupPath with
    | some bp =>
      if fsExists fs bp then
        match validate info.operation.source .write with
        | .error e => (fs, some e)
        | .ok vsrc =>
          match renameSync fs bp vsrc with
          | .error e => (fs, some e)
          | .ok fsb => (fsb, none)
      else (fs, none)
    | none => (fs, none)

/-- Embedding of `rollbackOperations`: the records are held newest-first,
so walking the list forward reverses the execution order; errors of single
rollbacks are logged and ignored. -/
def rollbackOperations (validate : Validator) : List RollbackInfo → FS → FS
  | [], fs => fs
  | info :: rest, fs =>
    rollbackOperations validate rest (rollbackSingleOperation validate info fs).1

/-- Per-operation result as surfaced by `executeBatch`: the operation and
`none` on success or the captured error message. -/
abbrev BatchOpResult := BatchOperation × Option String

/-- Main loop of `executeBatch`: validate per-op in non-atomic mode, execute,
collect rollback records; on an atomic failure roll back newest-first and
raise `Batch operation failed atomically`. -/
def executeBatchLoop (validate : Validator) (maxFileSize time : Nat) (atomic : Bool) :
    List BatchOperation → FS → List RollbackInfo → List BatchOpResult →
    FS × Except String (List BatchOpResult)
  | [], fs, _, results => (fs, .ok results.reverse)
  | op :: rest, fs, rbs, results =>
    let step : Except String (FS × RollbackInfo) :=
      if atomic then executeOperation validate time op fs
      else do
        validateSingleOperation validate maxFileSize op fs
        executeOperation validate time op fs
    match step with
    | .ok (fs1, rb) =>
      executeBatchLoop validate maxFileSize time atomic rest fs1 (rb :: rbs)
        ((op, none) :: results)
    | .error e =>
      if atomic then
        (rollbackOperations validate rbs fs,
         .error ("Batch operation failed atomically: " ++ e))
      else
        executeBatchLoop validate maxFileSize time atomic rest fs rbs
          ((op, some e) :: results)

/-- Embedding of `executeBatch`: atomic mode pre-validates every operation
(aborting without touching disk on rejection), then operations run strictly
in order. -/
def executeBatch (validate : Validator) (maxFileSize maxBatchSize time : Nat)
    (ops : List BatchOperation) (atomic : Bool) (fs : FS) :
    FS × Except String (List BatchOpResult) :=
  if atomic then
    match validateAllOperations validate maxFileSize maxBatchSize ops fs with
    | .error e => (fs, .error e)
    | .ok _ => executeBatchLoop validate maxFileSize time atomic ops fs [] []
  else executeBatchLoop validate maxFileSize time atomic ops fs [] []

/-- Vetting function that accepts every path unchanged (a workspace-wide
`SecurityManager` as seen through the injection boundary). -/
def acceptAll : Validator := fun p _ => .ok p

/-- Pre-batch filesystem of the C3 failing input: the move destination
`/ws/b` pre-exists. -/
def fsPre : FS := [("/ws/a", "A"), ("/ws/b", "B")]

/-- C3 failing input: an atomic batch whose first operation moves `/ws/a`
over the pre-existing `/ws/b` and whose second operation deletes a missing
path, failing at runtime and triggering rollback of the move. -/
def opsMoveThenFail : List BatchOperation :=
  [⟨.move, "/ws/a", some "/ws/b"⟩, ⟨.delete, "/ws/missing", none⟩]

/-- C3: evaluating `executeBatch` at the failing input shows the rollback
bug.  The batch fails atomically as expected, but the rolled-back state is
`[(/ws/a, "B")]` instead of the pre-batch `[(/ws/a, "A"), (/ws/b, "B")]`:
`rollbackSingleOperation` restores the shadow backup to the destination and
then renames the destination onto the source, so the pre-existing
destination content ends up at the source, the destination vanishes and the
original source content is destroyed.  By contrast the same batch against a
fresh destination `/ws/c` rolls back to exactly the pre-batch state. -/
theorem batch_move_rollback_destroys_state :
    executeBatch acceptAll 1000000 1000000 7 opsMoveThenFail true fsPre
      = ([("/ws/a", "B")], .error "Batch operation failed atomically: ENOENT") ∧
    fsLookup (executeBatch acceptAll 1000000 1000000 7 opsMoveThenFail true fsPre).1 "/ws/a"
      = some "B" ∧
    fsLookup (executeBatch acceptAll 1000000 1000000 7 opsMoveThenFail true fsPre).1 "/ws/b"
      = none ∧
    executeBatch acceptAll 1000000 1000000 7
        [⟨.move, "/ws/a", some "/ws/c"⟩, ⟨.delete, "/ws/missing", none⟩] true fsPre
      = (fsPre, .error "Batch operation failed atomically: ENOENT") :=
  ⟨rfl, rfl, rfl, rfl⟩

/-!
Embedding of `DirectoryWatcher.ts`.  The chokidar facility and the
filesystem are external: their observable outcomes enter as parameters (the
`statSync` outcome of the watched directory, whether the watcher became
ready, whether `close()` succeeded), and `minimatch` enters as an opaque
matcher `mm`.  The two private maps become association structures keyed by
session id.
-/

/-- Filesystem event kind. -/
inductive EventType where
  | create
  | modify
  | delete
  | rename
deriving DecidableEq, Repr

/-- One buffered `FileSystemEvent`. -/
structure FileSystemEvent where
  type : EventType
  path : String
  timestamp : Nat
  oldPath : Option String
deriving DecidableEq, Repr

/-- One live `WatchSession`. -/
structure WatchSession where
  id : String
  path : String
  recursive : Bool
  filters : List String
  events : List FileSystemEvent
deriving DecidableEq, Repr

/-- The two private maps of `DirectoryWatcher`: `watchers` (session id →
chokidar handle; only the key set is observable) and `sessions`. -/
structure WatcherState where
  watchers : List String
  sessions : List (String × WatchSession)
deriving Repr

/-- Membership in the `watchers` key set (`watchers.get(id)` truthiness). -/
def hasId : List String → String → Bool
  | [], _ => false
  | x :: rest, sid => if x = sid then true else hasId rest sid

/-- Lookup in the `sessions` map. -/
def lookupSession : List (String × WatchSession) → String → Option WatchSession
  | [], _ => none
  | (q, v) :: rest, k => if q = k then some v else lookupSession rest k

/-- Replace (or add) the binding of a session id (`Map.set`). -/
def setSession : List (String × WatchSession) → String → WatchSession →
    List (String × WatchSession)
  | [], k, v => [(k, v)]
  | (q, w) :: rest, k, v =>
    if q = k then (k, v) :: rest else (q, w) :: setSession rest k v

/-- Remove the binding of a session id (`Map.delete`). -/
def eraseKey : List (String × WatchSession) → String → List (String × WatchSession)
  | [], _ => []
  | (q, v) :: rest, k => if q = k then eraseKey rest k else (q, v) :: eraseKey rest k

/-- Remove an id from the `watchers` key set (`Map.delete`). -/
def eraseId : List String → String → List String
  | [], _ => []
  | x :: rest, k => if x = k then eraseId rest k else x :: eraseId rest k

/-- Rejections raised by the watcher (`ValidationError` / `FileSystemError`
messages). -/
inductive WatchErr where
  | sessionExists
  | notDirectory
  | dirNotFound
  | permissionDenied
  | initFailed
  | sessionNotFound
  | stopFailed
deriving DecidableEq, Repr

/-- Outcome of `fs.statSync` on the watched directory. -/
inductive DirStatus where
  | okDir
  | notDir
  | noEnt
  | accessDenied
deriving DecidableEq, Repr

/-- Embedding of `DirectoryWatcher.watch`: reject a live session id, check
the directory, store the watcher and the fresh session in both maps, then
wait for readiness; on a readiness failure both entries are deleted again
before the error is thrown. -/
def watch (st : WatcherState) (sid dirPath : String) (recursive : Bool)
    (filters : List String) (dirStatus : DirStatus) (readyOk : Bool) :
    WatcherState × Option WatchErr :=
  if (lookupSession st.sessions sid).isSome then (st, some .sessionExists)
  else
    match dirStatus with
    | .notDir => (st, some .notDirectory)
    | .noEnt => (st, some .dirNotFound)
    | .accessDenied => (st, some .permissionDenied)
    | .okDir =>
      let session : WatchSession := ⟨sid, dirPath, recursive, filters, []⟩
      let st1 : WatcherState := ⟨sid :: st.watchers, (sid, session) :: st.sessions⟩
      if readyOk then (st1, none)
      else (⟨eraseId st1.watchers sid, eraseKey st1.sessions sid⟩, some .initFailed)

/-- Embedding of `shouldIncludeEvent`: empty filter list admits everything,
otherwise some pattern must match (`mm` is `minimatch`). -/
def shouldIncludeEvent (mm : String → String → Bool) (filePath : String)
    (filters : List String) : Bool :=
  filters.isEmpty || filters.any (fun f => mm filePath f)

/-- Embedding of `recordEvent`: drop events of unknown sessions and events
failing the filter, append the rest to the session buffer in arrival
order. -/
def recordEvent (mm : String → String → Bool) (st : WatcherState) (sid : String)
    (t : EventType) (filePath : String) (timestamp : Nat) (oldPath : Option String) :
    WatcherState :=
  match lookupSession st.sessions sid with
  | none => st
  | some s =>
    if shouldIncludeEvent mm filePath s.filters then
      ⟨st.watchers, setSession st.sessions sid
        { s with events := s.events ++ [⟨t, filePath, timestamp, oldPath⟩] }⟩
    else st

/-- Embedding of `getEvents`: return the session buffer (a snapshot copy in
the source, `[...session.events]`); the state is untouched. -/
def getEvents (st : WatcherState) (sid : String) :
    Except WatchErr (List FileSystemEvent) :=
  match lookupSession st.sessions sid with
  | none => .error .sessionNotFound
  | some s => .ok s.events

/-- Embedding of `clearEvents`: reset the session buffer to `[]`. -/
def clearEvents (st : WatcherState) (sid : String) : Except WatchErr WatcherState :=
  match lookupSession st.sessions sid with
  | none => .error .sessionNotFound
  | some s => .ok ⟨st.watchers, setSession st.sessions sid { s with events := [] }⟩

/-- Embedding of `stopWatch`: unknown watcher id rejects; otherwise both map
entries are removed, also when closing the underlying watcher fails (the
`catch` branch cleans up before rethrowing). -/
def stopWatch (st : WatcherState) (sid : String) (closeOk : Bool) :
    WatcherState × Option WatchErr :=
  if !hasId st.watchers sid then (st, some .sessionNotFound)
  else
    let st1 : WatcherState := ⟨eraseId st.watchers sid, eraseKey st.sessions sid⟩
    if closeOk then (st1, none) else (st1, some .stopFailed)

/-- Embedding of `stopAll`: close every watcher (collecting errors), clear
both maps regardless, throw a combined error iff some close failed. -/
def stopAll (st : WatcherState) (closeOk : String → Bool) :
    WatcherState × Option WatchErr :=
  (⟨[], []⟩,
   if st.watchers.any (fun sid => !closeOk sid) then some .stopFailed else none)

/-- Lookup after replacing the same key. -/
theorem lookupSession_setSession_self (l : List (String × WatchSession))
    (k : String) (v : WatchSession) : lookupSession (setSession l k v) k = some v := by
  induction l with
  | nil => simp [setSession, lookupSession]
  | cons hd rest ih =>
    obtain ⟨q, w⟩ := hd
    by_cases hq : q = k
    · simp [setSession, lookupSession, hq]
    · simp [setSession, lookupSession, hq, ih]

/-- Lookup of a different key after replacing one. -/
theorem lookupSession_setSession_other (l : List (String × WatchSession))
    (k k' : String) (v : WatchSession) (hne : k' ≠ k) :
    lookupSession (setSession l k v) k' = lookupSession l k' := by
  induction l with
  | nil => simp [setSession, lookupSession, Ne.symm hne]
  | cons hd rest ih =>
    obtain ⟨q, w⟩ := hd
    by_cases hq : q = k
    · subst hq
      simp [setSession, lookupSession, Ne.symm hne]
    · simp [setSession, lookupSession, hq, ih]

/-- Lookup after deleting the same key. -/
theorem lookupSession_eraseKey_self (l : List (String × WatchSession)) (k : String) :
    lookupSession (eraseKey l k) k = none := by
  induction l with
  | nil => rfl
  | cons hd rest ih =>
    obtain ⟨q, w⟩ := hd
    by_cases hq : q = k
    · simp [eraseKey, hq, ih]
    · simp [eraseKey, lookupSession, hq, ih]

/-- Lookup of a different key after deleting one. -/
theorem lookupSession_eraseKey_other (l : List (String × WatchSession))
    (k k' : String) (hne : k' ≠ k) :
    lookupSession (eraseKey l k) k' = lookupSession l k' := by
  induction l with
  | nil => rfl
  | cons hd rest ih =>
    obtain ⟨q, w⟩ := hd
    by_cases hq : q = k
    · subst hq
      simp [eraseKey, lookupSession, Ne.symm hne, ih]
    · simp [eraseKey, lookupSession, hq, ih]

/-- Key-set membership after deleting the same id. -/
theorem hasId_eraseId_self (l : List String) (k : String) :
    hasId (eraseId l k) k = false := by
  induction l with
  | nil => rfl
  | cons x rest ih =>
    by_cases hx : x = k
    · simp [eraseId, hx, ih]
    · simp [eraseId, hasId, hx, ih]

/-- Key-set membership of a different id after deleting one. -/
theorem hasId_eraseId_other (l : List String) (k k' : String) (hne : k' ≠ k) :
    hasId (eraseId l k) k' = hasId l k' := by
  induction l with
  | nil => rfl
  | cons x rest ih =>
    by_cases hx : x = k
    · subst hx
      simp [eraseId, hasId, Ne.symm hne, ih]
    · simp [eraseId, hasId, hx, ih]

/-- C9: for a live session, `getEvents` returns exactly the buffered events
and leaves every buffer as it was (it reads the state only); a recorded
event is appended in arrival order and seen by the next `getEvents`; only
`clearEvents` empties the buffer, touching no other session; both calls
reject an unknown session id with `SESSION_NOT_FOUND`. -/
theorem getEvents_snapshot_clearEvents_empties (mm : String → String → Bool)
    (st : WatcherState) (sid : String) (s : WatchSession)
    (h : lookupSession st.sessions sid = some s) :
    getEvents st sid = .ok s.events ∧
    (∀ t fp ts op0, shouldIncludeEvent mm fp s.filters = true →
      getEvents (recordEvent mm st sid t fp ts op0) sid
        = .ok (s.events ++ [⟨t, fp, ts, op0⟩])) ∧
    (∃ st1, clearEvents st sid = .ok st1 ∧
      st1.watchers = st.watchers ∧
      lookupSession st1.sessions sid = some { s with events := [] } ∧
      (∀ other, other ≠ sid →
        lookupSession st1.sessions other = lookupSession st.sessions other)) ∧
    (∀ unknown, lookupSession st.sessions unknown = none →
      getEvents st unknown = .error .sessionNotFound ∧
      clearEvents st unknown = .error .sessionNotFound) := by
  refine ⟨?_, ?_, ?_, ?_⟩
  · simp [getEvents, h]
  · intro t fp ts op0 hf
    simp [recordEvent, h, hf, getEvents, lookupSession_setSession_self]
  · refine ⟨⟨st.watchers, setSession st.sessions sid { s with events := [] }⟩,
      by simp [clearEvents, h], rfl, lookupSession_setSession_self _ _ _, ?_⟩
    intro other hother
    exact lookupSession_setSession_other _ _ _ _ hother
  · intro unknown hu
    exact ⟨by simp [getEvents, hu], by simp [clearEvents, hu]⟩

/-- Concrete event for the watcher witnesses. -/
def evSample : FileSystemEvent := ⟨.create, "/d/x.ts", 5, none⟩

/-- Concrete live session for the watcher witnesses. -/
def sessSample : WatchSession := ⟨"s1", "/d", true, [], [evSample]⟩

/-- Concrete watcher state with one live session. -/
def wstSample : WatcherState := ⟨["s1"], [("s1", sessSample)]⟩

/-- Witness for C9 at the concrete one-session state. -/
theorem getEvents_snapshot_clearEvents_empties_witness :
    getEvents wstSample "s1" = .ok [evSample] ∧
    getEvents wstSample "nope" = .error .sessionNotFound ∧
    clearEvents wstSample "nope" = .error .sessionNotFound := by
  have h := getEvents_snapshot_clearEvents_empties (fun _ _ => true)
    wstSample "s1" sessSample rfl
  exact ⟨h.1, (h.2.2.2 "nope" rfl).1, (h.2.2.2 "nope" rfl).2⟩

/-- Key-set agreement of the two private maps of `DirectoryWatcher`. -/
def WInv (st : WatcherState) : Prop :=
  ∀ sid, hasId st.watchers sid = (lookupSession st.sessions sid).isSome

/-- Deleting one id from both maps preserves key-set agreement. -/
theorem WInv_erase (st : WatcherState) (hinv : WInv st) (k : String) :
    WInv ⟨eraseId st.watchers k, eraseKey st.sessions k⟩ := by
  intro sid
  by_cases h : sid = k
  · subst h
    simp [hasId_eraseId_self, lookupSession_eraseKey_self]
  · rw [hasId_eraseId_other _ _ _ h, lookupSession_eraseKey_other _ _ _ h]
    exact hinv sid

/-- Adding one id to both maps preserves key-set agreement. -/
theorem WInv_cons (st : WatcherState) (hinv : WInv st) (k : String)
    (sess : WatchSession) :
    WInv ⟨k :: st.watchers, (k, sess) :: st.sessions⟩ := by
  intro sid
  by_cases h : k = sid
  · simp [hasId, lookupSession, h]
  · simpa [hasId, lookupSession, h] using hinv sid

/-- Replacing a session value preserves key-set agreement. -/
theorem WInv_set (st : WatcherState) (hinv : WInv st) (k : String)
    (s sess : WatchSession) (hl : lookupSession st.sessions k = some s) :
    WInv ⟨st.watchers, setSession st.sessions k sess⟩ := by
  intro sid
  by_cases h : sid = k
  · subst h
    rw [lookupSession_setSession_self]
    simpa [hl] using hinv sid
  · rw [lookupSession_setSession_other _ _ _ _ h]
    exact hinv sid

/-- Equation of `watch` on a fresh id with a good directory and a ready
watcher. -/
theorem watch_fresh_ready (st : WatcherState) (sid dirPath : String)
    (recursive : Bool) (filters : List String)
    (hex : (lookupSession st.sessions sid).isSome = false) :
    watch st sid dirPath recursive filters .okDir true
      = (⟨sid :: st.watchers,
          (sid, ⟨sid, dirPath, recursive, filters, []⟩) :: st.sessions⟩, none) := by
  simp [watch, hex]

/-- Equation of `watch` on a fresh id whose watcher fails to become ready:
both stored entries are removed again. -/
theorem watch_fresh_notReady (st : WatcherState) (sid dirPath : String)
    (recursive : Bool) (filters : List String)
    (hex : (lookupSession st.sessions sid).isSome = false) :
    watch st sid dirPath recursive filters .okDir false
      = (⟨eraseId (sid :: st.watchers) sid,
          eraseKey ((sid, ⟨sid, dirPath, recursive, filters, []⟩) :: st.sessions) sid⟩,
         some .initFailed) := by
  simp [watch, hex]

/-- State equation of `stopWatch` on a present id: both entries are deleted
whether or not closing the underlying watcher succeeded. -/
theorem stopWatch_state (st : WatcherState) (sid : String) (closeOk : Bool)
    (hw : hasId st.watchers sid = true) :
    (stopWatch st sid closeOk).1
      = ⟨eraseId st.watchers sid, eraseKey st.sessions sid⟩ := by
  simp only [stopWatch, hw]
  cases closeOk <;> rfl

/-- C10: the `watchers` and `sessions` maps hold the same session ids after
every operation, including the failure paths of `watch` (readiness
failure), `stopWatch` (close error) and `stopAll`; consequently an id
stopped via `stopWatch` — even when closing errored — is fresh again and an
immediate new `watch` under that id succeeds and registers the session. -/
theorem watcher_maps_consistent (st : WatcherState) (hinv : WInv st) :
    (∀ sid dirPath recursive filters dirStatus readyOk,
      WInv (watch st sid dirPath recursive filters dirStatus readyOk).1) ∧
    (∀ sid closeOk, WInv (stopWatch st sid closeOk).1) ∧
    (∀ closeOk, WInv (stopAll st closeOk).1) ∧
    (∀ sid st1, clearEvents st sid = .ok st1 → WInv st1) ∧
    (∀ mm sid t fp ts op0, WInv (recordEvent mm st sid t fp ts op0)) ∧
    (∀ sid closeOk dirPath recursive filters,
      hasId st.watchers sid = true →
      (watch (stopWatch st sid closeOk).1 sid dirPath recursive filters .okDir true).2
        = none ∧
      (lookupSession
        (watch (stopWatch st sid closeOk).1 sid dirPath recursive filters
          .okDir true).1.sessions sid).isSome = true) := by
  refine ⟨?_, ?_, ?_, ?_, ?_, ?_⟩
  · intro sid dirPath recursive filters dirStatus readyOk
    by_cases hex : (lookupSession st.sessions sid).isSome = true
    · simpa [watch, hex] using hinv
    · have hex' : (lookupSession st.sessions sid).isSome = false := by
        simpa using hex
      cases dirStatus with
      | notDir => simpa [watch, hex'] using hinv
      | noEnt => simpa [watch, hex'] using hinv
      | accessDenied => simpa [watch, hex'] using hinv
      | okDir =>
        cases readyOk with
        | true =>
          rw [watch_fresh_ready st sid dirPath recursive filters hex']
          exact WInv_cons st hinv sid _
        | false =>
          rw [watch_fresh_notReady st sid dirPath recursive filters hex']
          have h1 : eraseId (sid :: st.watchers) sid = eraseId st.watchers sid := by
            simp [eraseId]
          have h2 : eraseKey
              ((sid, (⟨sid, dirPath, recursive, filters, []⟩ : WatchSession))
                :: st.sessions) sid = eraseKey st.sessions sid := by
            simp [eraseKey]
          show WInv ⟨eraseId (sid :: st.watchers) sid, _⟩
          rw [h1, h2]
          exact WInv_erase st hinv sid
  · intro sid closeOk
    by_cases hw : hasId st.watchers sid = true
    · rw [stopWatch_state st sid closeOk hw]
      exact WInv_erase st hinv sid
    · have hw' : hasId st.watchers sid = false := by simpa using hw
      simpa [stopWatch, hw'] using hinv
  · intro closeOk sid
    simp [stopAll, hasId, lookupSession]
  · intro sid st1 hc
    cases hl : lookupSession st.sessions sid with
    | none => simp [clearEvents, hl] at hc
    | some s =>
      simp only [clearEvents, hl, Except.ok.injEq] at hc
      subst hc
      exact WInv_set st hinv sid s _ hl
  · intro mm sid t fp ts op0
    cases hl : lookupSession st.sessions sid with
    | none => simpa [recordEvent, hl] using hinv
    | some s =>
      by_cases hf : shouldIncludeEvent mm fp s.filters = true
      · simp only [recordEvent, hl, hf, if_true]
        exact WInv_set st hinv sid s _ hl
      · have hf' : shouldIncludeEvent mm fp s.filters = false := by simpa using hf
        simpa [recordEvent, hl, hf'] using hinv
  · intro sid closeOk dirPath recursive filters hw
    rw [stopWatch_state st sid closeOk hw,
      watch_fresh_ready _ _ _ _ _ (by simp [lookupSession_eraseKey_self])]
    exact ⟨rfl, by simp [lookupSession]⟩

/-- Witness for C10: a concrete one-session state satisfies the key-set
invariant, and stopping `s1` with a failing close still frees the id for an
immediately following successful `watch`. -/
theorem watcher_maps_consistent_witness :
    hasId wstSample.watchers "s1" = true ∧
    (watch (stopWatch wstSample "s1" false).1 "s1" "/d" true [] .okDir true).2
      = none := by
  have hinv : WInv wstSample := by
    intro sid
    by_cases h : "s1" = sid
    · subst h
      rfl
    · simp [wstSample, hasId, lookupSession, h]
  exact ⟨rfl,
    ((watcher_maps_consistent wstSample hinv).2.2.2.2.2 "s1" false "/d" true [] rfl).1⟩

/-!
Embedding of `DirectoryOperations.recursiveSync`.  A directory tree carries
the `mtime` returned by `statSync` and the entry list returned by
`readdirSync`; copying a file stamps the destination with the copy-time
clock `now` (`copyFileSync` does not preserve timestamps), and creating a
missing destination directory stamps it likewise.  Exclusion patterns are
the compiled `globToRegex` predicates, applied to the source child path.
A destination that exists but is a plain file where a directory is being
synced into reproduces the source behaviour: no `mkdirSync` happens, and
the first non-excluded child operation fails (`ENOTDIR`/`EISDIR`), modelled
as `Except.error ()`.  `syncChildren` is the per-entry loop with the
recursive `recursiveSync` call inlined per destination shape;
`syncChildren_cons_dir` below proves the inlining agrees with the
`recursiveSync` wrapper.
-/

/-- Directory tree: `statSync` mtimes on every node, `readdirSync` entry
lists on directories, byte sizes on files. -/
inductive FsTree where
  | file (mtime size : Nat)
  | dir (mtime : Nat) (entries : List (String × FsTree))

/-- Lookup a directory entry by name. -/
def lookupEntry : List (String × FsTree) → String → Option FsTree
  | [], _ => none
  | (n, t) :: rest, k => if n = k then some t else lookupEntry rest k

/-- Replace (or append) a directory entry. -/
def setEntry : List (String × FsTree) → String → FsTree → List (String × FsTree)
  | [], k, v => [(k, v)]
  | (n, t) :: rest, k, v => if n = k then (k, v) :: rest else (n, t) :: setEntry rest k v

/-- Name membership in an entry list. -/
def memNames : List (String × FsTree) → String → Bool
  | [], _ => false
  | (n, _) :: rest, k => if n = k then true else memNames rest k

/-- The mtime `statSync` reports for a node. -/
def mtimeOf : FsTree → Nat
  | .file m _ => m
  | .dir m _ => m

/-- Embedding of `shouldExclude`: some compiled exclusion pattern matches
the source child path. -/
def shouldExclude (p : String) (patterns : List (String → Bool)) : Bool :=
  patterns.any (fun pat => pat p)

/-- Every immediate entry of the listing is excluded (the condition under
which a sync into a plain-file destination touches nothing). -/
def allEntriesExcluded (excl : List (String → Bool)) (sp : String) :
    List (String × FsTree) → Bool
  | [] => true
  | (n, _) :: rest =>
    shouldExclude (sp ++ "/" ++ n) excl && allEntriesExcluded excl sp rest

/-- The entry loop of `recursiveSync`: walk the source listing in
`readdirSync` order against the destination listing, skipping excluded
children, recursing into directories, copying a file unless the destination
has an entry with `mtime ≥` the source file's (then it is skipped and
counted).  The result is the new destination listing and the
`(filesCopied, filesSkipped, bytesTransferred)` counters. -/
def syncChildren (excl : List (String → Bool)) (now : Nat) :
    String → List (String × FsTree) → List (String × FsTree) →
    Except Unit (List (String × FsTree) × Nat × Nat × Nat)
  | _, [], des => .ok (des, 0, 0, 0)
  | sp, (name, child) :: rest, des =>
    if shouldExclude (sp ++ "/" ++ name) excl then
      syncChildren excl now sp rest des
    else
      match child with
      | .dir _ ces =>
        match lookupEntry des name with
        | some (.file fm fsz) =>
          if allEntriesExcluded excl (sp ++ "/" ++ name) ces then
            match syncChildren excl now sp rest (setEntry des name (.file fm fsz)) with
            | .error e => .error e
            | .ok (des2, c2, s2, b2) => .ok (des2, c2, s2, b2)
          else .error ()
        | some (.dir dm des0) =>
          match syncChildren excl now (sp ++ "/" ++ name) ces des0 with
          | .error e => .error e
          | .ok (des1, c1, s1, b1) =>
            match syncChildren excl now sp rest (setEntry des name (.dir dm des1)) with
            | .error e => .error e
            | .ok (des2, c2, s2, b2) => .ok (des2, c1 + c2, s1 + s2, b1 + b2)
        | none =>
          match syncChildren excl now (sp ++ "/" ++ name) ces [] with
          | .error e => .error e
          | .ok (des1, c1, s1, b1) =>
            match syncChildren excl now sp rest (setEntry des name (.dir now des1)) with
            | .error e => .error e
            | .ok (des2, c2, s2, b2) => .ok (des2, c1 + c2, s1 + s2, b1 + b2)
      | .file m sz =>
        match lookupEntry des name with
        | some destChild =>
          if m ≤ mtimeOf destChild then
            match syncChildren excl now sp rest des with
            | .error e => .error e
            | .ok (des2, c, s, b) => .ok (des2, c, s + 1, b)
          else
            match destChild with
            | .dir _ _ => .error ()
            | .file _ _ =>
              match syncChildren excl now sp rest (setEntry des name (.file now sz)) with
              | .error e => .error e
              | .ok (des2, c, s, b) => .ok (des2, c + 1, s, b + sz)
        | none =>
          match syncChildren excl now sp rest (setEntry des name (.file now sz)) with
          | .error e => .error e
          | .ok (des2, c, s, b) => .ok (des2, c + 1, s, b + sz)

/-- Embedding of `recursiveSync(source, destination)`: `es` is the source
directory listing at path `sp`, `dst` the destination node (or `none` when
the destination does not exist and `mkdirSync` creates it). -/
def recursiveSync (excl : List (String → Bool)) (now : Nat) (sp : String)
    (es : List (String × FsTree)) (dst : Option FsTree) :
    Except Unit (FsTree × Nat × Nat × Nat) :=
  match dst with
  | some (.file fm fsz) =>
    if allEntriesExcluded excl sp es then .ok (.file fm fsz, 0, 0, 0) else .error ()
  | some (.dir dm des) =>
    match syncChildren excl now sp es des with
    | .error e => .error e
    | .ok (des1, c, s, b) => .ok (.dir dm des1, c, s, b)
  | none =>
    match syncChildren excl now sp es [] with
    | .error e => .error e
    | .ok (des1, c, s, b) => .ok (.dir now des1, c, s, b)

/-- The inlined directory branch of `syncChildren` agrees with a
`recursiveSync` call on the child, as in the source. -/
theorem syncChildren_cons_dir (excl : List (String → Bool)) (now : Nat)
    (sp name : String) (dm : Nat) (ces rest des : List (String × FsTree))
    (hexcl : shouldExclude (sp ++ "/" ++ name) excl = false) :
    syncChildren excl now sp ((name, .dir dm ces) :: rest) des =
      match recursiveSync excl now (sp ++ "/" ++ name) ces (lookupEntry des name) with
      | .error e => .error e
      | .ok (sub, c1, s1, b1) =>
        match syncChildren excl now sp rest (setEntry des name sub) with
        | .error e => .error e
        | .ok (des2, c2, s2, b2) => .ok (des2, c1 + c2, s1 + s2, b1 + b2) := by
  simp only [syncChildren, hexcl, Bool.false_eq_true, if_false]
  cases hlk : lookupEntry des name with
  | none =>
    simp only [recursiveSync]
    cases syncChildren excl now (sp ++ "/" ++ name) ces [] with
    | error e => rfl
    | ok r =>
      obtain ⟨des1, c1, s1, b1⟩ := r
      rfl
  | some destChild =>
    cases destChild with
    | file fm fsz =>
      simp only [recursiveSync]
      cases hall : allEntriesExcluded excl (sp ++ "/" ++ name) ces with
      | false => simp
      | true =>
        simp only [if_true]
        cases syncChildren excl now sp rest (setEntry des name (.file fm fsz)) with
        | error e => rfl
        | ok r =>
          obtain ⟨des2, c2, s2, b2⟩ := r
          simp
    | dir dm2 des0 =>
      simp only [recursiveSync]
      cases syncChildren excl now (sp ++ "/" ++ name) ces des0 with
      | error e => rfl
      | ok r =>
        obtain ⟨des1, c1, s1, b1⟩ := r
        rfl

/-- Post-sync relation: each non-excluded source child is covered by the
destination listing — a source file by an entry at least as new, a source
directory by a synced destination directory (or by a plain file when the
whole source subtree is excluded). -/
def syncedL (excl : List (String → Bool)) : String → List (String × FsTree) →
    List (String × FsTree) → Bool
  | _, [], _ => true
  | sp, (name, child) :: rest, des =>
    (if shouldExclude (sp ++ "/" ++ name) excl then true
     else
       match child with
       | .file m _ =>
         match lookupEntry des name with
         | some destChild => decide (m ≤ mtimeOf destChild)
         | none => false
       | .dir _ ces =>
         match lookupEntry des name with
         | some (.dir _ des2) => syncedL excl (sp ++ "/" ++ name) ces des2
         | some (.file _ _) => allEntriesExcluded excl (sp ++ "/" ++ name) ces
         | none => false) &&
    syncedL excl sp rest des

/-- Every file mtime in the source listing is at most `now` (file mtimes do
not lie in the future of the copy clock). -/
def mtimesLEL (now : Nat) : List (String × FsTree) → Bool
  | [] => true
  | (_, .file m _) :: rest => decide (m ≤ now) && mtimesLEL now rest
  | (_, .dir _ ces) :: rest => mtimesLEL now ces && mtimesLEL now rest

/-- Entry names are duplicate-free at every level, as `readdirSync` listings
are. -/
def nodupTreeL : List (String × FsTree) → Bool
  | [] => true
  | (n, t) :: rest =>
    !memNames rest n &&
    (match t with
     | .file _ _ => true
     | .dir _ ces => nodupTreeL ces) &&
    nodupTreeL rest

/-- Lookup after replacing the same entry. -/
theorem lookupEntry_setEntry_self (l : List (String × FsTree)) (k : String)
    (v : FsTree) : lookupEntry (setEntry l k v) k = some v := by
  induction l with
  | nil => simp [setEntry, lookupEntry]
  | cons hd rest ih =>
    obtain ⟨n, t⟩ := hd
    by_cases h : n = k
    · simp [setEntry, lookupEntry, h]
    · simp [setEntry, lookupEntry, h, ih]

/-- Lookup of a different name after replacing an entry. -/
theorem lookupEntry_setEntry_other (l : List (String × FsTree)) (k k' : String)
    (v : FsTree) (hne : k' ≠ k) :
    lookupEntry (setEntry l k v) k' = lookupEntry l k' := by
  induction l with
  | nil => simp [setEntry, lookupEntry, Ne.symm hne]
  | cons hd rest ih =>
    obtain ⟨n, t⟩ := hd
    by_cases h : n = k
    · subst h
      simp [setEntry, lookupEntry, Ne.symm hne]
    · simp [setEntry, lookupEntry, h, ih]

/-- Replacing an entry with the value it already holds is the identity. -/
theorem setEntry_lookup_id (l : List (String × FsTree)) (k : String) (v : FsTree)
    (h : lookupEntry l k = some v) : setEntry l k v = l := by
  induction l with
  | nil => simp [lookupEntry] at h
  | cons hd rest ih =>
    obtain ⟨n, t⟩ := hd
    by_cases hn : n = k
    · subst hn
      simp only [lookupEntry, eq_self_iff_true, if_true, Option.some.injEq] at h
      subst h
      simp [setEntry]
    · simp only [lookupEntry, hn, if_false] at h
      simp [setEntry, hn, ih h]

/-- Frame property of the entry loop: a name absent from the source listing
keeps its destination binding. -/
theorem syncChildren_frame (excl : List (String → Bool)) (now : Nat) (sp : String) :
    ∀ (es des des' : List (String × FsTree)) (c s b : Nat),
    syncChildren excl now sp es des = .ok (des', c, s, b) →
    ∀ n, memNames es n = false → lookupEntry des' n = lookupEntry des n := by
  intro es
  induction es with
  | nil =>
    intro des des' c s b hrun n hn
    simp only [syncChildren, Except.ok.injEq, Prod.mk.injEq] at hrun
    rw [← hrun.1]
  | cons hd rest ih =>
    intro des des' c s b hrun n hn
    obtain ⟨name, child⟩ := hd
    simp only [memNames] at hn
    by_cases hname : name = n
    · rw [if_pos hname] at hn
      exact absurd hn (by simp)
    · rw [if_neg hname] at hn
      have hset : ∀ (v : FsTree),
          lookupEntry (setEntry des name v) n = lookupEntry des n :=
        fun v => lookupEntry_setEntry_other des name n v (fun h => hname h.symm)
      by_cases hexcl : shouldExclude (sp ++ "/" ++ name) excl = true
      · rw [syncChildren.eq_def] at hrun
        simp only [hexcl, if_true] at hrun
        exact ih des des' c s b hrun n hn
      · have hexcl' : shouldExclude (sp ++ "/" ++ name) excl = false := by
          simpa using hexcl
        rw [syncChildren.eq_def] at hrun
        simp only [hexcl', Bool.false_eq_true, if_false] at hrun
        cases child with
        | dir dm ces =>
          cases hlk : lookupEntry des name with
          | none =>
            simp only [hlk] at hrun
            cases h1 : syncChildren excl now (sp ++ "/" ++ name) ces [] with
            | error e => simp only [h1] at hrun; cases hrun
            | ok r1 =>
              obtain ⟨des1, c1, s1, b1⟩ := r1
              simp only [h1] at hrun
              cases h2 : syncChildren excl now sp rest (setEntry des name (.dir now des1)) with
              | error e => simp only [h2] at hrun; cases hrun
              | ok r2 =>
                obtain ⟨des2, c2, s2, b2⟩ := r2
                simp only [h2, Except.ok.injEq, Prod.mk.injEq] at hrun
                rw [← hrun.1, ih _ des2 c2 s2 b2 h2 n hn]
                exact hset _
          | some destChild =>
            simp only [hlk] at hrun
            cases destChild with
            | file fm fsz =>
              cases hall : allEntriesExcluded excl (sp ++ "/" ++ name) ces with
              | false => simp only [hall, Bool.false_eq_true, if_false] at hrun; cases hrun
              | true =>
                simp only [hall, if_true] at hrun
                cases h2 : syncChildren excl now sp rest (setEntry des name (.file fm fsz)) with
                | error e => simp only [h2] at hrun; cases hrun
                | ok r2 =>
                  obtain ⟨des2, c2, s2, b2⟩ := r2
                  simp only [h2, Except.ok.injEq, Prod.mk.injEq] at hrun
                  rw [← hrun.1, ih _ des2 c2 s2 b2 h2 n hn]
                  exact hset _
            | dir dm2 des0 =>
              cases h1 : syncChildren excl now (sp ++ "/" ++ name) ces des0 with
              | error e => simp only [h1] at hrun; cases hrun
              | ok r1 =>
                obtain ⟨des1, c1, s1, b1⟩ := r1
                simp only [h1] at hrun
                cases h2 : syncChildren excl now sp rest (setEntry des name (.dir dm2 des1)) with
                | error e => simp only [h2] at hrun; cases hrun
                | ok r2 =>
                  obtain ⟨des2, c2, s2, b2⟩ := r2
                  simp only [h2, Except.ok.injEq, Prod.mk.injEq] at hrun
                  rw [← hrun.1, ih _ des2 c2 s2 b2 h2 n hn]
                  exact hset _
        | file m sz =>
          cases hlk : lookupEntry des name with
          | none =>
            simp only [hlk] at hrun
            cases h2 : syncChildren excl now sp rest (setEntry des name (.file now sz)) with
            | error e => simp only [h2] at hrun; cases hrun
            | ok r2 =>
              obtain ⟨des2, c2, s2, b2⟩ := r2
              simp only [h2, Except.ok.injEq, Prod.mk.injEq] at hrun
              rw [← hrun.1, ih _ des2 c2 s2 b2 h2 n hn]
              exact hset _
          | some destChild =>
            simp only [hlk] at hrun
            by_cases hm : m ≤ mtimeOf destChild
            · rw [if_pos hm] at hrun
              cases h2 : syncChildren excl now sp rest des with
              | error e => simp only [h2] at hrun; cases hrun
              | ok r2 =>
                obtain ⟨des2, c2, s2, b2⟩ := r2
                simp only [h2, Except.ok.injEq, Prod.mk.injEq] at hrun
                rw [← hrun.1]
                exact ih des des2 c2 s2 b2 h2 n hn
            · rw [if_neg hm] at hrun
              cases destChild with
              | dir dm2 des0 => cases hrun
              | file fm fsz =>
                cases h2 : syncChildren excl now sp rest (setEntry des name (.file now sz)) with
                | error e => simp only [h2] at hrun; cases hrun
                | ok r2 =>
                  obtain ⟨des2, c2, s2, b2⟩ := r2
                  simp only [h2, Except.ok.injEq, Prod.mk.injEq] at hrun
                  rw [← hrun.1, ih _ des2 c2 s2 b2 h2 n hn]
                  exact hset _

/-- After a successful run of the entry loop, the destination listing is
synced with respect to the source listing (provided no source file mtime is
in the future of the copy clock and the listing names are duplicate-free at
every level). -/
theorem syncChildren_establishes_synced (excl : List (String → Bool)) (now : Nat) :
    ∀ (N : Nat) (es : List (String × FsTree)), sizeOf es ≤ N →
    ∀ (sp : String) (des des' : List (String × FsTree)) (c s b : Nat),
    syncChildren excl now sp es des = .ok (des', c, s, b) →
    mtimesLEL now es = true →
    nodupTreeL es = true →
    syncedL excl sp es des' = true := by
  intro N
  induction N with
  | zero =>
    intro es hsz
    exact absurd hsz (by cases es <;> simp)
  | succ k ih =>
    intro es hsz sp des des' c s b hrun hmt hnd
    cases es with
    | nil => simp [syncedL]
    | cons hd rest =>
      obtain ⟨name, child⟩ := hd
      rw [syncChildren.eq_def] at hrun
      by_cases hexcl : shouldExclude (sp ++ "/" ++ name) excl = true
      · simp only [hexcl, if_true] at hrun
        cases child with
        | file m sz =>
          simp only [List.cons.sizeOf_spec, Prod.mk.sizeOf_spec,
            FsTree.file.sizeOf_spec] at hsz
          simp only [mtimesLEL, Bool.and_eq_true] at hmt
          simp only [nodupTreeL, Bool.and_eq_true] at hnd
          have hrest := ih rest (by omega) sp des des' c s b hrun hmt.2 hnd.2
          rw [syncedL.eq_def]
          simp only [hexcl, if_true, Bool.true_and]
          exact hrest
        | dir dm ces =>
          simp only [List.cons.sizeOf_spec, Prod.mk.sizeOf_spec,
            FsTree.dir.sizeOf_spec] at hsz
          simp only [mtimesLEL, Bool.and_eq_true] at hmt
          simp only [nodupTreeL, Bool.and_eq_true] at hnd
          have hrest := ih rest (by omega) sp des des' c s b hrun hmt.2 hnd.2
          rw [syncedL.eq_def]
          simp only [hexcl, if_true, Bool.true_and]
          exact hrest
      · have hexcl' : shouldExclude (sp ++ "/" ++ name) excl = false := by
          simpa using hexcl
        simp only [hexcl', Bool.false_eq_true, if_false] at hrun
        cases child with
        | dir dm ces =>
          simp only [List.cons.sizeOf_spec, Prod.mk.sizeOf_spec,
            FsTree.dir.sizeOf_spec] at hsz
          simp only [mtimesLEL, Bool.and_eq_true] at hmt
          simp only [nodupTreeL, Bool.and_eq_true, Bool.not_eq_true] at hnd
          have hmem : memNames rest name = false := by simpa using hnd.1.1
          cases hlk : lookupEntry des name with
          | none =>
            simp only [hlk] at hrun
            cases h1 : syncChildren excl now (sp ++ "/" ++ name) ces [] with
            | error e => simp only [h1] at hrun; cases hrun
            | ok r1 =>
              obtain ⟨des1, c1, s1, b1⟩ := r1
              simp only [h1] at hrun
              cases h2 : syncChildren excl now sp rest
                  (setEntry des name (.dir now des1)) with
              | error e => simp only [h2] at hrun; cases hrun
              | ok r2 =>
                obtain ⟨des2, c2, s2, b2⟩ := r2
                simp only [h2, Except.ok.injEq, Prod.mk.injEq] at hrun
                obtain ⟨hd2, _⟩ := hrun
                subst hd2
                have hces := ih ces (by omega) (sp ++ "/" ++ name) [] des1 c1 s1 b1
                  h1 hmt.1 hnd.1.2
                have hrest := ih rest (by omega) sp _ des2 c2 s2 b2 h2 hmt.2 hnd.2
                have hlk' : lookupEntry des2 name = some (.dir now des1) := by
                  rw [syncChildren_frame excl now sp rest _ des2 c2 s2 b2 h2 name hmem]
                  exact lookupEntry_setEntry_self des name _
                rw [syncedL.eq_def]
                simp only [hexcl', Bool.false_eq_true, if_false, hlk', Bool.and_eq_true]
                exact ⟨hces, hrest⟩
          | some destChild =>
            simp only [hlk] at hrun
            cases destChild with
            | file fm fsz =>
              cases hall : allEntriesExcluded excl (sp ++ "/" ++ name) ces with
              | false =>
                simp only [hall, Bool.false_eq_true, if_false] at hrun
                cases hrun
              | true =>
                simp only [hall, if_true] at hrun
                cases h2 : syncChildren excl now sp rest
                    (setEntry des name (.file fm fsz)) with
                | error e => simp only [h2] at hrun; cases hrun
                | ok r2 =>
                  obtain ⟨des2, c2, s2, b2⟩ := r2
                  simp only [h2, Except.ok.injEq, Prod.mk.injEq] at hrun
                  obtain ⟨hd2, _⟩ := hrun
                  subst hd2
                  have hrest := ih rest (by omega) sp _ des2 c2 s2 b2 h2 hmt.2 hnd.2
                  have hlk' : lookupEntry des2 name = some (.file fm fsz) := by
                    rw [syncChildren_frame excl now sp rest _ des2 c2 s2 b2 h2 name hmem]
                    exact lookupEntry_setEntry_self des name _
                  rw [syncedL.eq_def]
                  simp only [hexcl', Bool.false_eq_true, if_false, hlk',
                    Bool.and_eq_true]
                  exact ⟨hall, hrest⟩
            | dir dm2 des0 =>
              cases h1 : syncChildren excl now (sp ++ "/" ++ name) ces des0 with
              | error e => simp only [h1] at hrun; cases hrun
              | ok r1 =>
                obtain ⟨des1, c1, s1, b1⟩ := r1
                simp only [h1] at hrun
                cases h2 : syncChildren excl now sp rest
                    (setEntry des name (.dir dm2 des1)) with
                | error e => simp only [h2] at hrun; cases hrun
                | ok r2 =>
                  obtain ⟨des2, c2, s2, b2⟩ := r2
                  simp only [h2, Except.ok.injEq, Prod.mk.injEq] at hrun
                  obtain ⟨hd2, _⟩ := hrun
                  subst hd2
                  have hces := ih ces (by omega) (sp ++ "/" ++ name) des0 des1 c1 s1 b1
                    h1 hmt.1 hnd.1.2
                  have hrest := ih rest (by omega) sp _ des2 c2 s2 b2 h2 hmt.2 hnd.2
                  have hlk' : lookupEntry des2 name = some (.dir dm2 des1) := by
                    rw [syncChildren_frame excl now sp rest _ des2 c2 s2 b2 h2 name hmem]
                    exact lookupEntry_setEntry_self des name _
                  rw [syncedL.eq_def]
                  simp only [hexcl', Bool.false_eq_true, if_false, hlk',
                    Bool.and_eq_true]
                  exact ⟨hces, hrest⟩
        | file m sz =>
          simp only [List.cons.sizeOf_spec, Prod.mk.sizeOf_spec,
            FsTree.file.sizeOf_spec] at hsz
          simp only [mtimesLEL, Bool.and_eq_true] at hmt
          simp only [nodupTreeL, Bool.and_eq_true, Bool.not_eq_true] at hnd
          have hmem : memNames rest name = false := by simpa using hnd.1.1
          have hmle : m ≤ now := by simpa using hmt.1
          cases hlk : lookupEntry des name with
          | none =>
            simp only [hlk] at hrun
            cases h2 : syncChildren excl now sp rest
                (setEntry des name (.file now sz)) with
            | error e => simp only [h2] at hrun; cases hrun
            | ok r2 =>
              obtain ⟨des2, c2, s2, b2⟩ := r2
              simp only [h2, Except.ok.injEq, Prod.mk.injEq] at hrun
              obtain ⟨hd2, _⟩ := hrun
              subst hd2
              have hrest := ih rest (by omega) sp _ des2 c2 s2 b2 h2 hmt.2 hnd.2
              have hlk' : lookupEntry des2 name = some (.file now sz) := by
                rw [syncChildren_frame excl now sp rest _ des2 c2 s2 b2 h2 name hmem]
                exact lookupEntry_setEntry_self des name _
              rw [syncedL.eq_def]
              simp only [hexcl', Bool.false_eq_true, if_false, hlk', Bool.and_eq_true,
                mtimeOf]
              exact ⟨by simpa using hmle, hrest⟩
          | some destChild =>
            simp only [hlk] at hrun
            by_cases hm : m ≤ mtimeOf destChild
            · rw [if_pos hm] at hrun
              cases h2 : syncChildren excl now sp rest des with
              | error e => simp only [h2] at hrun; cases hrun
              | ok r2 =>
                obtain ⟨des2, c2, s2, b2⟩ := r2
                simp only [h2, Except.ok.injEq, Prod.mk.injEq] at hrun
                obtain ⟨hd2, _⟩ := hrun
                subst hd2
                have hrest := ih rest (by omega) sp des des2 c2 s2 b2 h2 hmt.2 hnd.2
                have hlk' : lookupEntry des2 name = some destChild := by
                  rw [syncChildren_frame excl now sp rest des des2 c2 s2 b2 h2 name hmem]
                  exact hlk
                rw [syncedL.eq_def]
                simp only [hexcl', Bool.false_eq_true, if_false, hlk', Bool.and_eq_true]
                exact ⟨by simpa using hm, hrest⟩
            · rw [if_neg hm] at hrun
              cases destChild with
              | dir dm2 des0 => cases hrun
              | file fm fsz =>
                cases h2 : syncChildren excl now sp rest
                    (setEntry des name (.file now sz)) with
                | error e => simp only [h2] at hrun; cases hrun
                | ok r2 =>
                  obtain ⟨des2, c2, s2, b2⟩ := r2
                  simp only [h2, Except.ok.injEq, Prod.mk.injEq] at hrun
                  obtain ⟨hd2, _⟩ := hrun
                  subst hd2
                  have hrest := ih rest (by omega) sp _ des2 c2 s2 b2 h2 hmt.2 hnd.2
                  have hlk' : lookupEntry des2 name = some (.file now sz) := by
                    rw [syncChildren_frame excl now sp rest _ des2 c2 s2 b2 h2 name hmem]
                    exact lookupEntry_setEntry_self des name _
                  rw [syncedL.eq_def]
                  simp only [hexcl', Bool.false_eq_true, if_false, hlk',
                    Bool.and_eq_true, mtimeOf]
                  exact ⟨by simpa using hmle, hrest⟩

/-- On a synced destination the entry loop copies nothing and changes
nothing: every non-excluded file is skipped and the destination listing
comes back unchanged. -/
theorem syncChildren_synced_noop (excl : List (String → Bool)) (now : Nat) :
    ∀ (N : Nat) (es : List (String × FsTree)), sizeOf es ≤ N →
    ∀ (sp : String) (des : List (String × FsTree)),
    syncedL excl sp es des = true →
    ∃ s, syncChildren excl now sp es des = .ok (des, 0, s, 0) := by
  intro N
  induction N with
  | zero =>
    intro es hsz
    exact absurd hsz (by cases es <;> simp)
  | succ k ih =>
    intro es hsz sp des hs
    cases es with
    | nil => exact ⟨0, by simp [syncChildren]⟩
    | cons hd rest =>
      obtain ⟨name, child⟩ := hd
      rw [syncedL.eq_def] at hs
      by_cases hexcl : shouldExclude (sp ++ "/" ++ name) excl = true
      · simp only [hexcl, if_true, Bool.true_and] at hs
        simp only [List.cons.sizeOf_spec, Prod.mk.sizeOf_spec] at hsz
        obtain ⟨s2, h2⟩ := ih rest (by omega) sp des hs
        refine ⟨s2, ?_⟩
        rw [syncChildren.eq_def]
        simp only [hexcl, if_true]
        exact h2
      · have hexcl' : shouldExclude (sp ++ "/" ++ name) excl = false := by
          simpa using hexcl
        simp only [hexcl', Bool.false_eq_true, if_false, Bool.and_eq_true] at hs
        obtain ⟨hhead, hrest⟩ := hs
        cases child with
        | dir dm ces =>
          simp only [List.cons.sizeOf_spec, Prod.mk.sizeOf_spec,
            FsTree.dir.sizeOf_spec] at hsz
          cases hlk : lookupEntry des name with
          | none => simp only [hlk] at hhead; cases hhead
          | some destChild =>
            cases destChild with
            | dir dm2 des0 =>
              simp only [hlk] at hhead
              obtain ⟨s1, h1⟩ := ih ces (by omega) (sp ++ "/" ++ name) des0 hhead
              have hsetid : setEntry des name (.dir dm2 des0) = des :=
                setEntry_lookup_id des name _ hlk
              obtain ⟨s2, h2⟩ := ih rest (by omega) sp des hrest
              refine ⟨s1 + s2, ?_⟩
              rw [syncChildren.eq_def]
              simp only [hexcl', Bool.false_eq_true, if_false, hlk, h1, hsetid, h2]
            | file fm fsz =>
              simp only [hlk] at hhead
              have hsetid : setEntry des name (.file fm fsz) = des :=
                setEntry_lookup_id des name _ hlk
              obtain ⟨s2, h2⟩ := ih rest (by omega) sp des hrest
              refine ⟨s2, ?_⟩
              rw [syncChildren.eq_def]
              simp only [hexcl', Bool.false_eq_true, if_false, hlk, hhead, if_true,
                hsetid, h2]
        | file m sz =>
          simp only [List.cons.sizeOf_spec, Prod.mk.sizeOf_spec,
            FsTree.file.sizeOf_spec] at hsz
          cases hlk : lookupEntry des name with
          | none => simp only [hlk] at hhead; cases hhead
          | some destChild =>
            simp only [hlk] at hhead
            have hm : m ≤ mtimeOf destChild := by simpa using hhead
            obtain ⟨s2, h2⟩ := ih rest (by omega) sp des hrest
            refine ⟨s2 + 1, ?_⟩
            rw [syncChildren.eq_def]
            simp only [hexcl', Bool.false_eq_true, if_false, hlk, if_pos hm, h2]

/-- C8: sync is idempotent with respect to copying.  If `recursiveSync` over
a source listing (duplicate-free names, no file mtime past the copy clock)
returns normally with destination tree `d1`, then running it again over the
unchanged source against `d1` — at any later clock — succeeds, copies zero
files, transfers zero bytes and leaves the destination tree exactly `d1`:
every file is skipped because its destination mtime is at least the source
mtime. -/
theorem sync_directory_idempotent (excl : List (String → Bool))
    (now1 now2 : Nat) (sp : String) (es : List (String × FsTree))
    (dst : Option FsTree) (d1 : FsTree) (c1 s1 b1 : Nat)
    (hmt : mtimesLEL now1 es = true) (hnd : nodupTreeL es = true)
    (h1 : recursiveSync excl now1 sp es dst = .ok (d1, c1, s1, b1)) :
    ∃ s2, recursiveSync excl now2 sp es (some d1) = .ok (d1, 0, s2, 0) := by
  cases dst with
  | none =>
    simp only [recursiveSync] at h1
    cases hrun : syncChildren excl now1 sp es [] with
    | error e => simp only [hrun] at h1; cases h1
    | ok r =>
      obtain ⟨des1, c, s, b⟩ := r
      simp only [hrun, Except.ok.injEq, Prod.mk.injEq] at h1
      obtain ⟨hd1, _⟩ := h1
      have hsync := syncChildren_establishes_synced excl now1 (sizeOf es) es
        le_rfl sp [] des1 c s b hrun hmt hnd
      obtain ⟨s2, h2⟩ := syncChildren_synced_noop excl now2 (sizeOf es) es
        le_rfl sp des1 hsync
      refine ⟨s2, ?_⟩
      rw [← hd1]
      simp only [recursiveSync, h2]
  | some dtree =>
    cases dtree with
    | file fm fsz =>
      simp only [recursiveSync] at h1
      cases hall : allEntriesExcluded excl sp es with
      | false => simp only [hall, Bool.false_eq_true, if_false] at h1; cases h1
      | true =>
        simp only [hall, if_true, Except.ok.injEq, Prod.mk.injEq] at h1
        obtain ⟨hd1, _⟩ := h1
        refine ⟨0, ?_⟩
        rw [← hd1]
        simp only [recursiveSync, hall, if_true]
    | dir dm des =>
      simp only [recursiveSync] at h1
      cases hrun : syncChildren excl now1 sp es des with
      | error e => simp only [hrun] at h1; cases h1
      | ok r =>
        obtain ⟨des1, c, s, b⟩ := r
        simp only [hrun, Except.ok.injEq, Prod.mk.injEq] at h1
        obtain ⟨hd1, _⟩ := h1
        have hsync := syncChildren_establishes_synced excl now1 (sizeOf es) es
          le_rfl sp des des1 c s b hrun hmt hnd
        obtain ⟨s2, h2⟩ := syncChildren_synced_noop excl now2 (sizeOf es) es
          le_rfl sp des1 hsync
        refine ⟨s2, ?_⟩
        rw [← hd1]
        simp only [recursiveSync, h2]

/-- Witness for C8 at a one-file source tree: the first sync (clock 10)
copies the file, the second (clock 20) copies nothing and leaves the
destination tree unchanged. -/
theorem sync_directory_idempotent_witness :
    mtimesLEL 10 [("f", .file 3 7)] = true ∧
    nodupTreeL [("f", .file 3 7)] = true ∧
    recursiveSync [] 10 "/src" [("f", .file 3 7)] none
      = .ok (.dir 10 [("f", .file 10 7)], 1, 0, 7) ∧
    ∃ s2, recursiveSync [] 20 "/src" [("f", .file 3 7)]
        (some (.dir 10 [("f", .file 10 7)]))
      = .ok (.dir 10 [("f", .file 10 7)], 0, s2, 0) := by
  have hmt : mtimesLEL 10 [("f", FsTree.file 3 7)] = true := by
    simp [mtimesLEL]
  have hnd : nodupTreeL [("f", FsTree.file 3 7)] = true := by
    simp [nodupTreeL, memNames]
  have hrun : recursiveSync [] 10 "/src" [("f", FsTree.file 3 7)] none
      = .ok (.dir 10 [("f", FsTree.file 10 7)], 1, 0, 7) := by
    simp [recursiveSync, syncChildren, shouldExclude, lookupEntry, setEntry,
      allEntriesExcluded]
  exact ⟨hmt, hnd, hrun,
    sync_directory_idempotent [] 10 20 "/src" [("f", FsTree.file 3 7)] none
      (.dir 10 [("f", FsTree.file 10 7)]) 1 0 7 hmt hnd hrun⟩

end MCPFS
